import Mathlib

/-!
Shallow embedding of `main.go` from the `colours` repository: a terminal
palette printer that derives HSV/temperature attributes for the 216-colour
cube band (palette indices 16..231), sorts the band under flag-selected
comparators, and generates harmony sets for a reference colour.

Modelling conventions:
* Go `float64` arithmetic is modelled exactly by `ℚ`; every value that the
  embedded functions manipulate is a small rational, so the real-valued
  semantics of the source formulas is captured exactly.
* Go `int` palette indices are modelled by `ℕ`; all indices reaching the
  cube-only functions are at least 16, guarded exactly as in the source.
* Go `math.Mod` keeps the sign of its dividend; `goMod` reproduces that.
* `slices.SortFunc` (an unstable comparison sort) is modelled by
  `List.insertionSort` with the comparator translated from the source; the
  sortedness, partition and membership facts proved below hold for any
  comparison sort agreeing with the comparator.
-/

/-- Go `cmp.Compare`: `-1` if `x < y`, `1` if `x > y`, else `0`. -/
def goCompare {α : Type} [LinearOrder α] (x y : α) : ℤ :=
  if x < y then -1 else if y < x then 1 else 0

/-- Go `cmp.Or` on two comparison results: the first non-zero value, else zero. -/
def cmpOr (x y : ℤ) : ℤ := if x ≠ 0 then x else y

/-- Truncation toward zero, as used by Go `math.Mod`. -/
def ratTrunc (q : ℚ) : ℤ := if 0 ≤ q then ⌊q⌋ else ⌈q⌉

/-- Go `math.Mod x y = x - trunc(x/y)*y`; the result keeps the sign of `x`. -/
def goMod (x y : ℚ) : ℚ := x - y * (ratTrunc (x / y) : ℚ)

/-- `makeRange(from, to)` from the source: the list `from, from+1, ..., to`. -/
def makeRange (lo hi : ℕ) : List ℕ :=
  (List.range (hi + 1 - lo)).map (fun i => lo + i)

/-- `rgb(c)` from the source: the cube coordinates
`((c-16)/36, ((c-16)%36)/6, (c-16)%6)`. -/
def rgb (c : ℕ) : ℕ × ℕ × ℕ :=
  ((c - 16) / 36, ((c - 16) % 36) / 6, (c - 16) % 6)

/-- `hsv(c)` from the source: normalise the cube coordinates by `/5`, take
`v = max`, `s = 0` if `max = 0` else `(max-min)/max`, and the six-sector hue
formula (with `math.Mod _ 6` in the red sector), adding `360` when negative. -/
def hsv (c : ℕ) : ℚ × ℚ × ℚ :=
  let rN : ℚ := ((rgb c).1 : ℚ) / 5
  let gN : ℚ := ((rgb c).2.1 : ℚ) / 5
  let bN : ℚ := ((rgb c).2.2 : ℚ) / 5
  let mx := max (max rN gN) bN
  let mn := min (min rN gN) bN
  let delta := mx - mn
  let v := mx
  let s := if mx = 0 then 0 else delta / mx
  let h0 : ℚ :=
    if delta = 0 then 0
    else if mx = rN then 60 * goMod ((gN - bN) / delta) 6
    else if mx = gN then 60 * ((bN - rN) / delta + 2)
    else 60 * ((rN - gN) / delta + 4)
  let h := if h0 < 0 then h0 + 360 else h0
  (h, s, v)

/-- `colourTemperature(c)` from the source: `0` (warm) when `h ≤ 60` or
`h ≥ 300`, else `2` (cool) when `h ≤ 180`, else `1` (medium). -/
def colourTemperature (c : ℕ) : ℚ :=
  if (hsv c).1 ≤ 60 ∨ 300 ≤ (hsv c).1 then 0
  else if (hsv c).1 ≤ 180 then 2
  else 1

/-- The circular difference measure used by `findClosestColour` and
`generateMonochromeSequential`: `min(|h - target|, 360 - |h - target|)`
applied to the hue of colour `c`. -/
def fccDiff (targetHue : ℚ) (c : ℕ) : ℚ :=
  min |(hsv c).1 - targetHue| (360 - |(hsv c).1 - targetHue|)

/-- A candidate passes `findClosestColour`'s filter: it is not skipped by
`if v < 0.3 || s < 0.3 { continue }`. -/
def harmQual (c : ℕ) : Prop := ¬((hsv c).2.2 < 0.3 ∨ (hsv c).2.1 < 0.3)

instance : DecidablePred harmQual := fun _ =>
  inferInstanceAs (Decidable (¬ _))

/-- One iteration of `findClosestColour`'s loop; the state is
`(bestColour, bestDiff)`. -/
def fccStep (targetHue : ℚ) (referenceColour : ℕ) (st : ℤ × ℚ) (colour : ℕ) :
    ℤ × ℚ :=
  if colour = referenceColour then st
  else if (hsv colour).2.2 < 0.3 ∨ (hsv colour).2.1 < 0.3 then st
  else if fccDiff targetHue colour < st.2 then ((colour : ℤ), fccDiff targetHue colour)
  else st

/-- `findClosestColour` from the source: scan `colours` keeping the first
candidate achieving the strictly smallest difference, starting from
`(-1, 360)`; returns `-1` when no candidate qualifies. -/
def findClosestColour (targetHue : ℚ) (colours : List ℕ) (referenceColour : ℕ) : ℤ :=
  (colours.foldl (fccStep targetHue referenceColour) (-1, 360)).1

/-- `generateSplitComplementary` from the source: the reference followed by
the closest matches to `math.Mod(complement-30, 360)` and
`math.Mod(complement+30, 360)`, where `complement = math.Mod(refH+180, 360)`;
a `-1` (no match) is not appended. -/
def generateSplitComplementary (referenceColour : ℕ) (colours : List ℕ) : List ℤ :=
  if referenceColour < 16 ∨ 231 < referenceColour then [(referenceColour : ℤ)]
  else
    let refH := (hsv referenceColour).1
    let complementHue := goMod (refH + 180) 360
    let splitHue1 := goMod (complementHue - 30) 360
    let splitHue2 := goMod (complementHue + 30) 360
    let split1 := findClosestColour splitHue1 colours referenceColour
    let split2 := findClosestColour splitHue2 colours referenceColour
    (referenceColour : ℤ) ::
      ((if split1 ≠ -1 then [split1] else []) ++ (if split2 ≠ -1 then [split2] else []))

/-- The brightness comparison used to sort monochrome candidates
(`cmp.Compare(aV, bV)` under `slices.SortFunc`, darkest first). -/
def valueLe (a b : ℕ) : Prop := (hsv a).2.2 ≤ (hsv b).2.2

instance : DecidableRel valueLe := fun _ _ =>
  inferInstanceAs (Decidable (_ ≤ _))

/-- `generateMonochromeSequential` from the source: collect colours within
hue difference 5 of the reference (15 if fewer than `numColours` were found),
sort by brightness, take `numColours`; if the reference was not taken,
overwrite the middle element with it and re-sort. -/
def generateMonochromeSequential (referenceColour : ℕ) (colours : List ℕ)
    (numColours : ℕ) : List ℕ :=
  if referenceColour < 16 ∨ 231 < referenceColour then [referenceColour]
  else
    let refH := (hsv referenceColour).1
    let cands5 := colours.filter (fun c => decide (fccDiff refH c ≤ 5))
    let candidates :=
      if cands5.length < numColours then
        colours.filter (fun c => decide (fccDiff refH c ≤ 15))
      else cands5
    let sorted := candidates.insertionSort valueLe
    let result := sorted.take numColours
    if referenceColour ∈ result then result
    else if 0 < result.length then
      (result.set (result.length / 2) referenceColour).insertionSort valueLe
    else result

/-- `generateRGBGradient` from the source: sweep the cube channel holding the
largest value (checking R, then G, then B) through 0..5, fixing the others. -/
def generateRGBGradient (referenceColour : ℕ) (colours : List ℕ)
    (numColours : ℕ) : List ℕ :=
  if referenceColour < 16 ∨ 231 < referenceColour then [referenceColour]
  else
    let refR := (rgb referenceColour).1
    let refG := (rgb referenceColour).2.1
    let refB := (rgb referenceColour).2.2
    let maxComponent := max (max refR refG) refB
    if refR = maxComponent then
      (List.range 6).map (fun r => 16 + r * 36 + refG * 6 + refB)
    else if refG = maxComponent then
      (List.range 6).map (fun g => 16 + refR * 36 + g * 6 + refB)
    else
      (List.range 6).map (fun b => 16 + refR * 36 + refG * 6 + b)

/-- The grey flag of the hue strategy (`aIsGrey := aS < 0.1`). -/
def isGrey (c : ℕ) : Prop := (hsv c).2.1 < 0.1

instance : DecidablePred isGrey := fun _ =>
  inferInstanceAs (Decidable (_ < _))

/-- The `slices.SortFunc` comparator of the hue strategy (`-hue`): greys
(saturation `< 0.1`) strictly after non-greys, then hue ascending, then
saturation descending, then brightness descending. -/
def hueSortCmp (a b : ℕ) : ℤ :=
  if isGrey a ∧ ¬ isGrey b then 1
  else if ¬ isGrey a ∧ isGrey b then -1
  else
    cmpOr (goCompare (hsv a).1 (hsv b).1)
      (cmpOr (goCompare (-(hsv a).2.1) (-(hsv b).2.1))
        (goCompare (-(hsv a).2.2) (-(hsv b).2.2)))

/-- The weak order induced by the hue comparator. -/
def hueLe (a b : ℕ) : Prop := hueSortCmp a b ≤ 0

instance : DecidableRel hueLe := fun _ _ =>
  inferInstanceAs (Decidable (_ ≤ _))

/-- The cube band as sorted by the hue strategy. -/
def hueSorted : List ℕ := (makeRange 16 231).insertionSort hueLe

/-- The `slices.SortFunc` comparator of the default strategy: R ascending,
then B ascending, then G ascending on the cube coordinates. -/
def rgbSortCmp (a b : ℕ) : ℤ :=
  cmpOr (goCompare (rgb a).1 (rgb b).1)
    (cmpOr (goCompare (rgb a).2.2 (rgb b).2.2)
      (goCompare (rgb a).2.1 (rgb b).2.1))

/-- The weak order induced by the default RGB comparator. -/
def rgbLe (a b : ℕ) : Prop := rgbSortCmp a b ≤ 0

instance : DecidableRel rgbLe := fun _ _ =>
  inferInstanceAs (Decidable (_ ≤ _))

/-- The cube band as sorted by the default (no-flag) RGB strategy. -/
def rgbSorted : List ℕ := (makeRange 16 231).insertionSort rgbLe

/-- The strategy branches of `main`'s `switch`. -/
inductive Strategy
  | distSort
  | greySort
  | harmonyMode
  | hueSort
  | lumSort
  | satSort
  | simSort
  | tempSort
  | rgbSort
  deriving DecidableEq

/-- Outcome of `main`'s flag validation and dispatch: either the process
exits with status 1 (before any sorting or harmony computation), or the
given branch of the `switch` runs. -/
inductive MainOutcome
  | exitError
  | run (s : Strategy)
  deriving DecidableEq

/-- `main`'s validation and dispatch logic, translated from the source:
validate `-dist` and `-harm` (a zero value, the flag default, skips the
check), then select the first applicable branch of the `switch`. -/
def mainOutcome (dist : ℤ) (grey : Bool) (harm : ℤ) (hue lum sat sim temp : Bool) :
    MainOutcome :=
  if dist ≠ 0 ∧ (dist < 16 ∨ 231 < dist) then .exitError
  else if harm ≠ 0 ∧ (harm < 16 ∨ 231 < harm) then .exitError
  else if dist ≠ 0 then .run .distSort
  else if grey then .run .greySort
  else if harm ≠ 0 then .run .harmonyMode
  else if hue then .run .hueSort
  else if lum then .run .lumSort
  else if sat then .run .satSort
  else if sim then .run .simSort
  else if temp then .run .tempSort
  else .run .rgbSort

/-- Modelled from the claim (C7): sweep the channel with the largest cube
coordinate (ties preferring R, then G, then B) through 0..5, holding the
other two channels fixed, reconstructing indices as `16 + 36r + 6g + b`. -/
def rgbGradientSpec (referenceColour : ℕ) : List ℕ :=
  let r := (rgb referenceColour).1
  let g := (rgb referenceColour).2.1
  let b := (rgb referenceColour).2.2
  if g ≤ r ∧ b ≤ r then (List.range 6).map (fun k => 16 + k * 36 + g * 6 + b)
  else if b ≤ g then (List.range 6).map (fun k => 16 + r * 36 + k * 6 + b)
  else (List.range 6).map (fun k => 16 + r * 36 + g * 6 + k)

/-- The hue-class property asserted by claim C1 for index `i`. -/
def TempSpec (i : ℕ) : Prop :=
  (colourTemperature i = 0 ↔ ((hsv i).1 ≤ 60 ∨ 300 ≤ (hsv i).1)) ∧
  (colourTemperature i = 2 ↔ (60 < (hsv i).1 ∧ (hsv i).1 ≤ 180)) ∧
  (colourTemperature i = 1 ↔ (180 < (hsv i).1 ∧ (hsv i).1 < 300))

/-- The component-range property asserted by claim C8 for index `i`. -/
def HsvRangeSpec (i : ℕ) : Prop :=
  0 ≤ (hsv i).1 ∧ (hsv i).1 < 360 ∧
  0 ≤ (hsv i).2.1 ∧ (hsv i).2.1 ≤ 1 ∧
  0 ≤ (hsv i).2.2 ∧ (hsv i).2.2 ≤ 1 ∧
  (max (max (rgb i).1 (rgb i).2.1) (rgb i).2.2 =
      min (min (rgb i).1 (rgb i).2.1) (rgb i).2.2 →
    (hsv i).1 = 0)

instance : DecidablePred HsvRangeSpec := fun i => by
  unfold HsvRangeSpec; infer_instance

/-- Weak three-key lexicographic comparison over a linear order. -/
def lex3Le {α : Type} [LinearOrder α] (p q : α × α × α) : Prop :=
  p.1 < q.1 ∨ (p.1 = q.1 ∧ (p.2.1 < q.2.1 ∨ (p.2.1 = q.2.1 ∧ p.2.2 ≤ q.2.2)))

/-- Strict three-key lexicographic comparison over a linear order. -/
def lex3Lt {α : Type} [LinearOrder α] (p q : α × α × α) : Prop :=
  p.1 < q.1 ∨ (p.1 = q.1 ∧ (p.2.1 < q.2.1 ∨ (p.2.1 = q.2.1 ∧ p.2.2 < q.2.2)))

instance {α : Type} [LinearOrder α] (p q : α × α × α) : Decidable (lex3Le p q) := by
  unfold lex3Le; infer_instance

instance {α : Type} [LinearOrder α] (p q : α × α × α) : Decidable (lex3Lt p q) := by
  unfold lex3Lt; infer_instance

/-- Claim-side numeric key chain of the hue strategy: hue ascending, then
saturation descending, then brightness descending (descending keys are
compared through negation). -/
def hueChainLe (a b : ℕ) : Prop :=
  lex3Le ((hsv a).1, -(hsv a).2.1, -(hsv a).2.2)
    ((hsv b).1, -(hsv b).2.1, -(hsv b).2.2)

/-- The (R, B, G) key triple of the default comparator. -/
def rgbKey (c : ℕ) : ℕ × ℕ × ℕ := ((rgb c).1, (rgb c).2.2, (rgb c).2.1)

/-- Claim-side strict order of the default strategy: R ascending, then B
ascending, then G ascending. -/
def rgbKeyLt (a b : ℕ) : Prop := lex3Lt (rgbKey a) (rgbKey b)

instance : ∀ a b : ℕ, Decidable (rgbKeyLt a b) := fun a b => by
  unfold rgbKeyLt; infer_instance

/-- What `findClosestColour` guarantees about a returned colour: a
qualifying member of the scanned list, distinct from the reference, whose
difference to the target hue is minimal among all qualifying members. -/
def ClosestMatch (targetHue : ℚ) (colours : List ℕ) (referenceColour c : ℕ) : Prop :=
  c ∈ colours ∧ c ≠ referenceColour ∧ harmQual c ∧
    ∀ d ∈ colours, d ≠ referenceColour → harmQual d →
      fccDiff targetHue c ≤ fccDiff targetHue d

/-- Invariant of `findClosestColour`'s scan after processing the prefix
`seen`: either nothing qualified yet and the state is still `(-1, 360)`, or
the state holds a qualifying colour of minimal difference seen so far. -/
def FccInv (targetHue : ℚ) (referenceColour : ℕ) (seen : List ℕ) (st : ℤ × ℚ) : Prop :=
  (st = (-1, 360) ∧ ∀ c ∈ seen, c ≠ referenceColour → ¬ harmQual c) ∨
  (∃ c : ℕ, c ∈ seen ∧ c ≠ referenceColour ∧ harmQual c ∧
    st = ((c : ℤ), fccDiff targetHue c) ∧
    ∀ d ∈ seen, d ≠ referenceColour → harmQual d →
      fccDiff targetHue c ≤ fccDiff targetHue d)

/-- The property proved for the amended C2: the split-complementary set is
the reference followed by (when they exist) a qualifying candidate of
minimal difference to `math.Mod(complement-30, 360)` and then one of
minimal difference to `math.Mod(complement+30, 360)`, where the difference
is the code's measure `min(|h-t|, 360-|h-t|)` and `math.Mod` keeps the sign
of its dividend; a position with no qualifying candidate is omitted. -/
def SplitSpec (ref : ℕ) : Prop :=
  ∃ tail1 tail2 : List ℤ,
    generateSplitComplementary ref (makeRange 16 231) = (ref : ℤ) :: (tail1 ++ tail2) ∧
    ((tail1 = [] ∧ ∀ d ∈ makeRange 16 231, d ≠ ref → ¬ harmQual d) ∨
      (∃ c : ℕ, tail1 = [(c : ℤ)] ∧
        ClosestMatch (goMod (goMod ((hsv ref).1 + 180) 360 - 30) 360)
          (makeRange 16 231) ref c)) ∧
    ((tail2 = [] ∧ ∀ d ∈ makeRange 16 231, d ≠ ref → ¬ harmQual d) ∨
      (∃ c : ℕ, tail2 = [(c : ℤ)] ∧
        ClosestMatch (goMod (goMod ((hsv ref).1 + 180) 360 + 30) 360)
          (makeRange 16 231) ref c))

/-- Claim-side circular hue distance: the shorter of the two arcs between
two hue angles on a 360-degree circle. -/
def circHueDist (a b : ℚ) : ℚ := min |a - b| (360 - |a - b|)

/-- Claim-side mathematical modulus into [0, 360). -/
def mathMod360 (x : ℚ) : ℚ := x - 360 * (⌊x / 360⌋ : ℚ)

/-- The candidate pool of `generateMonochromeSequential`: colours within hue
difference 5 of the reference, widened to 15 when fewer than `numColours`
were found. -/
def monoCandidates (referenceColour : ℕ) (colours : List ℕ) (numColours : ℕ) :
    List ℕ :=
  if (colours.filter
        (fun c => decide (fccDiff (hsv referenceColour).1 c ≤ 5))).length < numColours
  then colours.filter (fun c => decide (fccDiff (hsv referenceColour).1 c ≤ 15))
  else colours.filter (fun c => decide (fccDiff (hsv referenceColour).1 c ≤ 5))

/-- The brightness-sorted, truncated monochrome candidate list. -/
def monoResult (referenceColour : ℕ) (colours : List ℕ) (numColours : ℕ) :
    List ℕ :=
  ((monoCandidates referenceColour colours numColours).insertionSort valueLe).take
    numColours

/-- The property asserted by claim C5 for reference `ref`: the monochrome
sequential set is sorted by brightness ascending, contains the reference,
and has at most 6 elements. -/
def MonoSpec (ref : ℕ) : Prop :=
  List.Sorted valueLe (generateMonochromeSequential ref (makeRange 16 231) 6) ∧
  ref ∈ generateMonochromeSequential ref (makeRange 16 231) 6 ∧
  (generateMonochromeSequential ref (makeRange 16 231) 6).length ≤ 6

/-- Membership in the cube band list. -/
lemma mem_makeRange {c : ℕ} : c ∈ makeRange 16 231 ↔ 16 ≤ c ∧ c ≤ 231 := by
  simp only [makeRange, List.mem_map, List.mem_range]
  constructor
  · rintro ⟨k, hk, rfl⟩; omega
  · rintro ⟨h1, h2⟩; exact ⟨c - 16, by omega, by omega⟩

/-- The cube-coordinate map is injective on the cube band. -/
lemma rgb_inj {i j : ℕ} (hi1 : 16 ≤ i) (hi2 : i ≤ 231) (hj1 : 16 ≤ j)
    (hj2 : j ≤ 231) (h : rgb i = rgb j) : i = j := by
  unfold rgb at h
  simp only [Prod.mk.injEq] at h
  omega

/-- C1: for every cube-band index `i`, `colourTemperature i` is `0` exactly
when the hue of `hsv i` is at most 60 or at least 300 (warm), `2` exactly
when the hue lies in (60, 180] (cool), and `1` exactly when the hue lies in
(180, 300) (medium). -/
theorem colourTemperature_hue_classes (i : ℕ) (h1 : 16 ≤ i) (h2 : i ≤ 231) :
    TempSpec i := by
  unfold TempSpec colourTemperature
  split_ifs with hA hB
  · refine ⟨⟨fun _ => hA, fun _ => rfl⟩, ⟨?_, ?_⟩, ⟨?_, ?_⟩⟩
    · intro hc; norm_num at hc
    · rintro ⟨hx, hy⟩; rcases hA with h | h <;> linarith
    · intro hc; norm_num at hc
    · rintro ⟨hx, hy⟩; rcases hA with h | h <;> linarith
  · push_neg at hA
    refine ⟨⟨?_, ?_⟩, ⟨fun _ => ⟨hA.1, hB⟩, fun _ => rfl⟩, ⟨?_, ?_⟩⟩
    · intro hc; norm_num at hc
    · rintro (h | h) <;> linarith [hA.1, hA.2]
    · intro hc; norm_num at hc
    · rintro ⟨hx, hy⟩; linarith
  · push_neg at hA hB
    refine ⟨⟨?_, ?_⟩, ⟨?_, ?_⟩, ⟨fun _ => ⟨hB, hA.2⟩, fun _ => rfl⟩⟩
    · intro hc; norm_num at hc
    · rintro (h | h) <;> linarith [hA.1, hA.2]
    · intro hc; norm_num at hc
    · rintro ⟨hx, hy⟩; linarith

/-- Witness for C1 at index 100. -/
theorem colourTemperature_hue_classes_witness : TempSpec 100 :=
  colourTemperature_hue_classes 100 (by norm_num) (by norm_num)

/-- C3 counterexample: the flag value 0 lies outside [16, 231], yet `main`
does not exit with an error — it is the flag default and skips validation,
falling through to the default RGB branch. -/
theorem mainOutcome_zero_not_error :
    mainOutcome 0 false 0 false false false false false ≠ MainOutcome.exitError ∧
    mainOutcome 0 false 0 false false false false false = MainOutcome.run .rgbSort := by
  decide

/-- C3 (amended): for every NON-ZERO integer flag value outside [16, 231],
whether given to `-dist` or to `-harm`, `main` prints an error and exits
with a non-zero status before any sorting or harmony computation runs. -/
theorem mainOutcome_invalid_ref_exits (v : ℤ) (hv : v ≠ 0)
    (hout : v < 16 ∨ 231 < v) :
    mainOutcome v false 0 false false false false false = MainOutcome.exitError ∧
    mainOutcome 0 false v false false false false false = MainOutcome.exitError := by
  unfold mainOutcome
  constructor
  · rw [if_pos ⟨hv, hout⟩]
  · rw [if_neg (by simp), if_pos ⟨hv, hout⟩]

/-- Witness for the amended C3 at flag value 300. -/
theorem mainOutcome_invalid_ref_exits_witness :
    mainOutcome 300 false 0 false false false false false = MainOutcome.exitError ∧
    mainOutcome 0 false 300 false false false false false = MainOutcome.exitError :=
  mainOutcome_invalid_ref_exits 300 (by decide) (by decide)

/-- C10: a `-dist` or `-harm` value of 0 is treated as if the flag were
absent: no error exit, the distance and harmony branches are skipped, and
with no other selector set control falls through to the default RGB
ordering. -/
theorem mainOutcome_zero_skips_branches :
    (∀ g h l s si t : Bool,
      mainOutcome 0 g 0 h l s si t ≠ MainOutcome.exitError ∧
      mainOutcome 0 g 0 h l s si t ≠ MainOutcome.run .distSort ∧
      mainOutcome 0 g 0 h l s si t ≠ MainOutcome.run .harmonyMode) ∧
    mainOutcome 0 false 0 false false false false false = MainOutcome.run .rgbSort := by
  decide

/-- C6: on the cube band [16, 231] the map `rgb` lands in [0, 5]³ and is a
bijection onto the 216 triplets: injective on the band, and every triplet of
[0, 5]³ is attained from some in-band index. -/
theorem rgb_cube_bijection :
    (∀ i : ℕ, 16 ≤ i → i ≤ 231 →
      (rgb i).1 ≤ 5 ∧ (rgb i).2.1 ≤ 5 ∧ (rgb i).2.2 ≤ 5) ∧
    (∀ i j : ℕ, 16 ≤ i → i ≤ 231 → 16 ≤ j → j ≤ 231 → rgb i = rgb j → i = j) ∧
    (∀ r g b : ℕ, r ≤ 5 → g ≤ 5 → b ≤ 5 →
      ∃ i : ℕ, 16 ≤ i ∧ i ≤ 231 ∧ rgb i = (r, g, b)) := by
  refine ⟨?_, ?_, ?_⟩
  · intro i hi1 hi2; dsimp only [rgb]; refine ⟨?_, ?_, ?_⟩ <;> omega
  · intro i j hi1 hi2 hj1 hj2 h; exact rgb_inj hi1 hi2 hj1 hj2 h
  · intro r g b hr hg hb
    refine ⟨16 + r * 36 + g * 6 + b, by omega, by omega, ?_⟩
    unfold rgb
    simp only [Prod.mk.injEq]
    omega

/-- Witness for C6, instantiated at index 100 and triplet (1, 2, 3). -/
theorem rgb_cube_bijection_witness :
    ((rgb 100).1 ≤ 5 ∧ (rgb 100).2.1 ≤ 5 ∧ (rgb 100).2.2 ≤ 5) ∧
    (rgb 17 = rgb 17 → 17 = 17) ∧
    (∃ i : ℕ, 16 ≤ i ∧ i ≤ 231 ∧ rgb i = (1, 2, 3)) :=
  ⟨rgb_cube_bijection.1 100 (by norm_num) (by norm_num),
   fun h => rgb_cube_bijection.2.1 17 17 (by norm_num) (by norm_num)
     (by norm_num) (by norm_num) h,
   rgb_cube_bijection.2.2 1 2 3 (by norm_num) (by norm_num) (by norm_num)⟩

set_option maxRecDepth 100000 in
/-- C7: for every cube-band reference, `generateRGBGradient` returns exactly
the six indices obtained by sweeping the largest cube channel (ties
preferring R, then G, then B) through 0..5 with the other channels fixed;
in particular reference 16 yields 16, 52, 88, 124, 160, 196. -/
theorem generateRGBGradient_sweeps_max_channel :
    (∀ referenceColour ∈ Finset.Icc (16 : ℕ) 231,
      generateRGBGradient referenceColour (makeRange 16 231) 6 =
        rgbGradientSpec referenceColour) ∧
    generateRGBGradient 16 (makeRange 16 231) 6 = [16, 52, 88, 124, 160, 196] := by
  constructor
  · decide
  · rfl

/-- Witness for C7 at reference 100. -/
theorem generateRGBGradient_sweeps_max_channel_witness :
    generateRGBGradient 100 (makeRange 16 231) 6 = rgbGradientSpec 100 :=
  generateRGBGradient_sweeps_max_channel.1 100 (by decide)

set_option maxRecDepth 100000 in
/-- C8: for every cube-band index, `hsv` returns a hue in [0, 360), a
saturation in [0, 1] and a value in [0, 1]; when the maximal channel equals
the minimal channel (achromatic) the hue is exactly 0. -/
theorem hsv_component_ranges : ∀ i ∈ Finset.Icc (16 : ℕ) 231, HsvRangeSpec i := by
  with_unfolding_all decide

/-- Witness for C8 at index 100. -/
theorem hsv_component_ranges_witness : HsvRangeSpec 100 :=
  hsv_component_ranges 100 (by decide)

lemma lex3Le_total {α : Type} [LinearOrder α] (p q : α × α × α) :
    lex3Le p q ∨ lex3Le q p := by
  unfold lex3Le
  rcases lt_trichotomy p.1 q.1 with h | h | h
  · exact Or.inl (Or.inl h)
  · rcases lt_trichotomy p.2.1 q.2.1 with h2 | h2 | h2
    · exact Or.inl (Or.inr ⟨h, Or.inl h2⟩)
    · rcases le_total p.2.2 q.2.2 with h3 | h3
      · exact Or.inl (Or.inr ⟨h, Or.inr ⟨h2, h3⟩⟩)
      · exact Or.inr (Or.inr ⟨h.symm, Or.inr ⟨h2.symm, h3⟩⟩)
    · exact Or.inr (Or.inr ⟨h.symm, Or.inl h2⟩)
  · exact Or.inr (Or.inl h)

lemma lex3Le_trans {α : Type} [LinearOrder α] {p q r : α × α × α}
    (h1 : lex3Le p q) (h2 : lex3Le q r) : lex3Le p r := by
  unfold lex3Le at *
  rcases h1 with h1 | ⟨e1, h1⟩ <;> rcases h2 with h2 | ⟨e2, h2⟩
  · exact Or.inl (h1.trans h2)
  · exact Or.inl (lt_of_lt_of_le h1 (le_of_eq e2))
  · exact Or.inl (lt_of_le_of_lt (le_of_eq e1) h2)
  · refine Or.inr ⟨e1.trans e2, ?_⟩
    rcases h1 with h1 | ⟨f1, h1⟩ <;> rcases h2 with h2 | ⟨f2, h2⟩
    · exact Or.inl (h1.trans h2)
    · exact Or.inl (lt_of_lt_of_le h1 (le_of_eq f2))
    · exact Or.inl (lt_of_le_of_lt (le_of_eq f1) h2)
    · exact Or.inr ⟨f1.trans f2, h1.trans h2⟩

lemma lex3Le_lt_of_ne {α : Type} [LinearOrder α] {p q : α × α × α}
    (h : lex3Le p q) (hne : p ≠ q) : lex3Lt p q := by
  unfold lex3Le at h
  unfold lex3Lt
  rcases h with h | ⟨e1, h | ⟨e2, h3⟩⟩
  · exact Or.inl h
  · exact Or.inr ⟨e1, Or.inl h⟩
  · refine Or.inr ⟨e1, Or.inr ⟨e2, lt_of_le_of_ne h3 ?_⟩⟩
    intro he
    exact hne (Prod.ext e1 (Prod.ext e2 he))

lemma goCompare_lt_zero {α : Type} [LinearOrder α] {x y : α} :
    goCompare x y < 0 ↔ x < y := by
  unfold goCompare
  split_ifs with h1 h2
  · exact iff_of_true (by norm_num) h1
  · exact iff_of_false (by norm_num) (lt_asymm h2)
  · exact iff_of_false (by norm_num) h1

lemma goCompare_eq_zero {α : Type} [LinearOrder α] {x y : α} :
    goCompare x y = 0 ↔ x = y := by
  unfold goCompare
  split_ifs with h1 h2
  · exact iff_of_false (by norm_num) (ne_of_lt h1)
  · exact iff_of_false (by norm_num) (ne_of_gt h2)
  · exact iff_of_true rfl (le_antisymm (not_lt.1 h2) (not_lt.1 h1))

lemma goCompare_le_zero {α : Type} [LinearOrder α] {x y : α} :
    goCompare x y ≤ 0 ↔ x ≤ y := by
  unfold goCompare
  split_ifs with h1 h2
  · exact iff_of_true (by norm_num) h1.le
  · exact iff_of_false (by norm_num) (not_le.2 h2)
  · exact iff_of_true le_rfl (not_lt.1 h2)

lemma cmpOr_le_zero {x y : ℤ} : cmpOr x y ≤ 0 ↔ (x < 0 ∨ (x = 0 ∧ y ≤ 0)) := by
  unfold cmpOr
  split_ifs with h <;> omega

/-- The hue comparator orders `a` no later than `b` exactly when `a` is
non-grey and `b` grey, or both have the same greyness and the numeric key
chain orders them. -/
lemma hueLe_iff {a b : ℕ} :
    hueLe a b ↔
      ((¬ isGrey a ∧ isGrey b) ∨ ((isGrey a ↔ isGrey b) ∧ hueChainLe a b)) := by
  unfold hueLe hueSortCmp
  split_ifs with g1 g2
  · refine iff_of_false (by norm_num) ?_
    rintro (⟨hna, _⟩ | ⟨hiff, _⟩)
    · exact hna g1.1
    · exact g1.2 (hiff.1 g1.1)
  · exact iff_of_true (by norm_num) (Or.inl ⟨g2.1, g2.2⟩)
  · have hiff : isGrey a ↔ isGrey b := by tauto
    rw [cmpOr_le_zero, cmpOr_le_zero, goCompare_lt_zero, goCompare_eq_zero,
      goCompare_lt_zero, goCompare_eq_zero, goCompare_le_zero]
    unfold hueChainLe lex3Le
    constructor
    · intro h; exact Or.inr ⟨hiff, h⟩
    · rintro (⟨hna, hgb⟩ | ⟨_, h⟩)
      · exact absurd ⟨hna, hgb⟩ g2
      · exact h

instance : IsTotal ℕ hueLe :=
  ⟨fun a b => by
    rw [hueLe_iff, hueLe_iff]
    by_cases ga : isGrey a <;> by_cases gb : isGrey b
    · rcases lex3Le_total ((hsv a).1, -(hsv a).2.1, -(hsv a).2.2)
        ((hsv b).1, -(hsv b).2.1, -(hsv b).2.2) with h | h
      · exact Or.inl (Or.inr ⟨by tauto, h⟩)
      · exact Or.inr (Or.inr ⟨by tauto, h⟩)
    · exact Or.inr (Or.inl ⟨gb, ga⟩)
    · exact Or.inl (Or.inl ⟨ga, gb⟩)
    · rcases lex3Le_total ((hsv a).1, -(hsv a).2.1, -(hsv a).2.2)
        ((hsv b).1, -(hsv b).2.1, -(hsv b).2.2) with h | h
      · exact Or.inl (Or.inr ⟨by tauto, h⟩)
      · exact Or.inr (Or.inr ⟨by tauto, h⟩)⟩

instance : IsTrans ℕ hueLe :=
  ⟨fun a b c hab hbc => by
    rw [hueLe_iff] at hab hbc ⊢
    rcases hab with ⟨hna, hgb⟩ | ⟨hiff1, hch1⟩ <;>
      rcases hbc with ⟨hnb, hgc⟩ | ⟨hiff2, hch2⟩
    · exact absurd hgb hnb
    · exact Or.inl ⟨hna, hiff2.1 hgb⟩
    · exact Or.inl ⟨fun hga => hnb (hiff1.1 hga), hgc⟩
    · exact Or.inr ⟨hiff1.trans hiff2, lex3Le_trans hch1 hch2⟩⟩

/-- C4: the hue-strategy output is a permutation of the cube band in which
no achromatic index (saturation < 0.1) precedes a non-achromatic one, and
any two indices of equal greyness appear in the order of the key chain
hue ascending, saturation descending, brightness descending. -/
theorem hue_sort_grey_partition :
    hueSorted.Perm (makeRange 16 231) ∧
    hueSorted.Pairwise (fun a b =>
      ¬(isGrey a ∧ ¬ isGrey b) ∧ ((isGrey a ↔ isGrey b) → hueChainLe a b)) := by
  refine ⟨List.perm_insertionSort hueLe _, ?_⟩
  have hs : hueSorted.Pairwise hueLe := List.sorted_insertionSort hueLe _
  refine hs.imp ?_
  intro a b hab
  rw [hueLe_iff] at hab
  rcases hab with ⟨hna, hgb⟩ | ⟨hiff, hchain⟩
  · exact ⟨fun hc => hna hc.1, fun hif => absurd (hif.2 hgb) hna⟩
  · exact ⟨fun hc => hc.2 (hiff.1 hc.1), fun _ => hchain⟩

/-- The default comparator orders `a` no later than `b` exactly when the
(R, B, G) key of `a` is lexicographically at most that of `b`. -/
lemma rgbLe_iff {a b : ℕ} : rgbLe a b ↔ lex3Le (rgbKey a) (rgbKey b) := by
  unfold rgbLe rgbSortCmp rgbKey
  rw [cmpOr_le_zero, cmpOr_le_zero, goCompare_lt_zero, goCompare_eq_zero,
    goCompare_lt_zero, goCompare_eq_zero, goCompare_le_zero]
  unfold lex3Le
  exact Iff.rfl

instance : IsTotal ℕ rgbLe :=
  ⟨fun a b => by
    rw [rgbLe_iff, rgbLe_iff]
    exact lex3Le_total _ _⟩

instance : IsTrans ℕ rgbLe :=
  ⟨fun a b c hab hbc => by
    rw [rgbLe_iff] at hab hbc ⊢
    exact lex3Le_trans hab hbc⟩

/-- Equal (R, B, G) keys mean equal cube coordinates. -/
lemma rgbKey_eq_imp {a b : ℕ} (h : rgbKey a = rgbKey b) : rgb a = rgb b := by
  have h1 := congrArg Prod.fst h
  have h2 := congrArg (fun p : ℕ × ℕ × ℕ => p.2.1) h
  have h3 := congrArg (fun p : ℕ × ℕ × ℕ => p.2.2) h
  dsimp [rgbKey] at h1 h2 h3
  exact Prod.ext h1 (Prod.ext h3 h2)

/-- The cube band is duplicate-free. -/
lemma nodup_makeRange : (makeRange 16 231).Nodup := by
  unfold makeRange
  exact (List.nodup_range _).map fun x y h => by omega

/-- In a pairwise-ordered list, an element related forward (and not
backward) to another appears strictly earlier. -/
lemma pairwise_indexOf_lt {l : List ℕ} {R : ℕ → ℕ → Prop} (hp : l.Pairwise R)
    {a b : ℕ} (ha : a ∈ l) (hb : b ∈ l) (hne : a ≠ b) (hnba : ¬ R b a) :
    l.indexOf a < l.indexOf b := by
  have hia : l.indexOf a < l.length := List.indexOf_lt_length.2 ha
  have hib : l.indexOf b < l.length := List.indexOf_lt_length.2 hb
  rcases lt_trichotomy (l.indexOf a) (l.indexOf b) with h | h | h
  · exact h
  · exact absurd ((List.indexOf_inj ha hb).1 h) hne
  · exfalso
    have hrel := List.pairwise_iff_getElem.1 hp _ _ hib hia h
    rw [List.getElem_indexOf hib, List.getElem_indexOf hia] at hrel
    exact hnba hrel

/-- C9: the default (no-flag) output is a permutation of the cube band that
is strictly ordered by R ascending, then B ascending, then G ascending; in
particular index 16 appears before index 21, which appears before 52. -/
theorem rgb_default_sort_strict_order :
    rgbSorted.Perm (makeRange 16 231) ∧
    rgbSorted.Pairwise rgbKeyLt ∧
    rgbSorted.indexOf 16 < rgbSorted.indexOf 21 ∧
    rgbSorted.indexOf 21 < rgbSorted.indexOf 52 := by
  have hperm : rgbSorted.Perm (makeRange 16 231) := List.perm_insertionSort rgbLe _
  have hpair : rgbSorted.Pairwise rgbLe := List.sorted_insertionSort rgbLe _
  have hnd : rgbSorted.Nodup := hperm.nodup_iff.2 nodup_makeRange
  have hstrict : rgbSorted.Pairwise rgbKeyLt := by
    have hand := hpair.and hnd
    refine hand.imp_of_mem ?_
    intro a b ha hb hab
    have ha' := mem_makeRange.1 (hperm.mem_iff.1 ha)
    have hb' := mem_makeRange.1 (hperm.mem_iff.1 hb)
    have hle := rgbLe_iff.1 hab.1
    refine lex3Le_lt_of_ne hle ?_
    intro hk
    exact hab.2 (rgb_inj ha'.1 ha'.2 hb'.1 hb'.2 (rgbKey_eq_imp hk))
  have h16 : (16 : ℕ) ∈ rgbSorted := hperm.mem_iff.2 (mem_makeRange.2 (by norm_num))
  have h21 : (21 : ℕ) ∈ rgbSorted := hperm.mem_iff.2 (mem_makeRange.2 (by norm_num))
  have h52 : (52 : ℕ) ∈ rgbSorted := hperm.mem_iff.2 (mem_makeRange.2 (by norm_num))
  exact ⟨hperm, hstrict,
    pairwise_indexOf_lt hstrict h16 h21 (by decide) (by decide),
    pairwise_indexOf_lt hstrict h21 h52 (by decide) (by decide)⟩

/-- The difference measure never exceeds 180. -/
lemma fccDiff_le_180 (t : ℚ) (c : ℕ) : fccDiff t c ≤ 180 := by
  unfold fccDiff
  rcases le_total |(hsv c).1 - t| 180 with h | h
  · exact le_trans (min_le_left _ _) h
  · exact le_trans (min_le_right _ _) (by linarith)

/-- One scan step preserves the invariant. -/
lemma fccStep_inv {t : ℚ} {ref : ℕ} {seen : List ℕ} {st : ℤ × ℚ} (a : ℕ)
    (h : FccInv t ref seen st) : FccInv t ref (seen ++ [a]) (fccStep t ref st a) := by
  unfold fccStep
  split_ifs with h1 h2 h3
  · rcases h with ⟨hst, hno⟩ | ⟨c, hc, hcr, hcq, hst, hmin⟩
    · left
      refine ⟨hst, ?_⟩
      intro d hd hdr
      rcases List.mem_append.1 hd with hd | hd
      · exact hno d hd hdr
      · rw [List.mem_singleton] at hd; subst hd; exact absurd h1 hdr
    · right
      refine ⟨c, List.mem_append_left _ hc, hcr, hcq, hst, ?_⟩
      intro d hd hdr hdq
      rcases List.mem_append.1 hd with hd | hd
      · exact hmin d hd hdr hdq
      · rw [List.mem_singleton] at hd; subst hd; exact absurd h1 hdr
  · have hnq : ¬ harmQual a := fun hq => hq h2
    rcases h with ⟨hst, hno⟩ | ⟨c, hc, hcr, hcq, hst, hmin⟩
    · left
      refine ⟨hst, ?_⟩
      intro d hd hdr
      rcases List.mem_append.1 hd with hd | hd
      · exact hno d hd hdr
      · rw [List.mem_singleton] at hd; subst hd; exact hnq
    · right
      refine ⟨c, List.mem_append_left _ hc, hcr, hcq, hst, ?_⟩
      intro d hd hdr hdq
      rcases List.mem_append.1 hd with hd | hd
      · exact hmin d hd hdr hdq
      · rw [List.mem_singleton] at hd; subst hd; exact absurd hdq hnq
  · have hq : harmQual a := h2
    right
    refine ⟨a, List.mem_append_right _ (List.mem_singleton_self a), h1, hq, rfl, ?_⟩
    intro d hd hdr hdq
    rcases List.mem_append.1 hd with hd | hd
    · rcases h with ⟨hst, hno⟩ | ⟨c, hc, hcr, hcq, hst, hmin⟩
      · exact absurd hdq (hno d hd hdr)
      · have hmind := hmin d hd hdr hdq
        rw [hst] at h3
        have h3' : fccDiff t a < fccDiff t c := h3
        exact le_trans (le_of_lt h3') hmind
    · rw [List.mem_singleton] at hd; subst hd; exact le_refl _
  · have hq : harmQual a := h2
    rcases h with ⟨hst, hno⟩ | ⟨c, hc, hcr, hcq, hst, hmin⟩
    · exfalso
      rw [hst] at h3
      push_neg at h3
      have h360 : (360 : ℚ) ≤ fccDiff t a := h3
      have := fccDiff_le_180 t a
      linarith
    · right
      refine ⟨c, List.mem_append_left _ hc, hcr, hcq, hst, ?_⟩
      intro d hd hdr hdq
      rcases List.mem_append.1 hd with hd | hd
      · exact hmin d hd hdr hdq
      · rw [List.mem_singleton] at hd; subst hd
        rw [hst] at h3
        push_neg at h3
        exact h3

/-- The invariant carries through the whole scan. -/
lemma fcc_fold_inv (t : ℚ) (ref : ℕ) :
    ∀ (l seen : List ℕ) (st : ℤ × ℚ), FccInv t ref seen st →
      FccInv t ref (seen ++ l) (l.foldl (fccStep t ref) st) := by
  intro l
  induction l with
  | nil => intro seen st h; simpa using h
  | cons a l ih =>
    intro seen st h
    have h2 := ih (seen ++ [a]) (fccStep t ref st a) (fccStep_inv a h)
    simpa [List.append_assoc] using h2

/-- `findClosestColour` either returns `-1` and no candidate qualifies, or
returns a qualifying candidate of minimal difference to the target. -/
lemma fcc_cases (t : ℚ) (l : List ℕ) (ref : ℕ) :
    (findClosestColour t l ref = -1 ∧ ∀ c ∈ l, c ≠ ref → ¬ harmQual c) ∨
    (∃ c : ℕ, findClosestColour t l ref = (c : ℤ) ∧ ClosestMatch t l ref c) := by
  have h := fcc_fold_inv t ref l [] (-1, 360) (Or.inl ⟨rfl, by simp⟩)
  rw [List.nil_append] at h
  unfold findClosestColour
  rcases h with ⟨hst, hno⟩ | ⟨c, hc, hcr, hcq, hst, hmin⟩
  · left; exact ⟨by rw [hst], hno⟩
  · right; exact ⟨c, by rw [hst], hc, hcr, hcq, hmin⟩

/-- `generateSplitComplementary` on an in-band reference, written without
the intermediate bindings. -/
lemma generateSplitComplementary_eq (ref : ℕ) (colours : List ℕ)
    (h : ¬(ref < 16 ∨ 231 < ref)) :
    generateSplitComplementary ref colours =
      (ref : ℤ) ::
        ((if findClosestColour (goMod (goMod ((hsv ref).1 + 180) 360 - 30) 360)
              colours ref ≠ -1
          then [findClosestColour (goMod (goMod ((hsv ref).1 + 180) 360 - 30) 360)
              colours ref] else []) ++
         (if findClosestColour (goMod (goMod ((hsv ref).1 + 180) 360 + 30) 360)
              colours ref ≠ -1
          then [findClosestColour (goMod (goMod ((hsv ref).1 + 180) 360 + 30) 360)
              colours ref] else [])) := by
  unfold generateSplitComplementary
  rw [if_neg h]

/-- C2 (amended): for every in-band reference, the split-complementary set
is the reference followed by the optional best matches to the two targets
`math.Mod(complement∓30, 360)` under the code's difference measure (which
coincides with circular hue distance only for non-negative targets). -/
theorem generateSplitComplementary_closest (ref : ℕ) (h1 : 16 ≤ ref)
    (h2 : ref ≤ 231) : SplitSpec ref := by
  unfold SplitSpec
  rw [generateSplitComplementary_eq ref (makeRange 16 231) (by omega)]
  rcases fcc_cases (goMod (goMod ((hsv ref).1 + 180) 360 - 30) 360)
      (makeRange 16 231) ref with ⟨hz1, hno1⟩ | ⟨c1, hc1, hm1⟩ <;>
    rcases fcc_cases (goMod (goMod ((hsv ref).1 + 180) 360 + 30) 360)
        (makeRange 16 231) ref with ⟨hz2, hno2⟩ | ⟨c2, hc2, hm2⟩
  · exact ⟨[], [], by rw [hz1, hz2]; simp, Or.inl ⟨rfl, hno1⟩, Or.inl ⟨rfl, hno2⟩⟩
  · refine ⟨[], [(c2 : ℤ)], ?_, Or.inl ⟨rfl, hno1⟩, Or.inr ⟨c2, rfl, hm2⟩⟩
    rw [hz1, hc2]
    have : (c2 : ℤ) ≠ -1 := by omega
    simp [this]
  · refine ⟨[(c1 : ℤ)], [], ?_, Or.inr ⟨c1, rfl, hm1⟩, Or.inl ⟨rfl, hno2⟩⟩
    rw [hz2, hc1]
    have : (c1 : ℤ) ≠ -1 := by omega
    simp [this]
  · refine ⟨[(c1 : ℤ)], [(c2 : ℤ)], ?_, Or.inr ⟨c1, rfl, hm1⟩, Or.inr ⟨c2, rfl, hm2⟩⟩
    rw [hc1, hc2]
    have t1 : (c1 : ℤ) ≠ -1 := by omega
    have t2 : (c2 : ℤ) ≠ -1 := by omega
    simp [t1, t2]

/-- Witness for the amended C2 at reference 51. -/
theorem generateSplitComplementary_closest_witness : SplitSpec 51 :=
  generateSplitComplementary_closest 51 (by norm_num) (by norm_num)

set_option maxRecDepth 100000 in
/-- C2 counterexample at reference 51 (hue 180): the code places 197
(hue 348) in the complement-minus-30 slot because Go's `math.Mod` leaves the
target at -30 and the difference measure goes negative near hue 360, yet the
qualifying candidate 89 (hue 330) is strictly closer to the claim's target
`((hue+180)-30) mod 360 = 330` in circular hue distance (0 versus 18), so
the slot does not hold a qualifying candidate of minimal circular distance. -/
theorem splitComplementary_not_circular_closest :
    ∃ tail : List ℤ,
      generateSplitComplementary 51 (makeRange 16 231) = 51 :: (197 : ℤ) :: tail ∧
      harmQual 89 ∧ (89 : ℕ) ∈ makeRange 16 231 ∧ (89 : ℕ) ≠ 51 ∧
      circHueDist (hsv 89).1 (mathMod360 ((hsv 51).1 + 180 - 30)) <
        circHueDist (hsv 197).1 (mathMod360 ((hsv 51).1 + 180 - 30)) := by
  have huniq : ∀ d ∈ Finset.Icc (16 : ℕ) 231, d ≠ 51 → harmQual d →
      (fccDiff (goMod (goMod ((hsv 51).1 + 180) 360 - 30) 360) 197 ≤
        fccDiff (goMod (goMod ((hsv 51).1 + 180) 360 - 30) 360) d ∧
       (fccDiff (goMod (goMod ((hsv 51).1 + 180) 360 - 30) 360) d ≤
        fccDiff (goMod (goMod ((hsv 51).1 + 180) 360 - 30) 360) 197 → d = 197)) := by
    with_unfolding_all decide
  have hq197 : harmQual 197 := by with_unfolding_all decide
  have h197L : (197 : ℕ) ∈ makeRange 16 231 := mem_makeRange.2 (by norm_num)
  rcases fcc_cases (goMod (goMod ((hsv 51).1 + 180) 360 - 30) 360)
      (makeRange 16 231) 51 with ⟨hz, hno⟩ | ⟨c, hcz, hcm⟩
  · exact absurd hq197 (hno 197 h197L (by norm_num))
  · have hc197 : c = 197 := by
      have hrange := mem_makeRange.1 hcm.1
      have hin : c ∈ Finset.Icc (16 : ℕ) 231 := Finset.mem_Icc.2 hrange
      have hcle := hcm.2.2.2 197 h197L (by norm_num) hq197
      exact (huniq c hin hcm.2.1 hcm.2.2.1).2 hcle
    subst hc197
    refine ⟨(if findClosestColour (goMod (goMod ((hsv 51).1 + 180) 360 + 30) 360)
          (makeRange 16 231) 51 ≠ -1
        then [findClosestColour (goMod (goMod ((hsv 51).1 + 180) 360 + 30) 360)
          (makeRange 16 231) 51] else []),
      ?_, by with_unfolding_all decide, mem_makeRange.2 (by norm_num),
      by norm_num, by with_unfolding_all decide⟩
    rw [generateSplitComplementary_eq 51 (makeRange 16 231) (by norm_num)]
    rw [hcz]
    have hne : ((197 : ℕ) : ℤ) ≠ -1 := by omega
    rw [if_pos hne]
    simp


instance : IsTotal ℕ valueLe :=
  ⟨fun _ _ => le_total _ _⟩

instance : IsTrans ℕ valueLe :=
  ⟨fun _ _ _ hab hbc => le_trans hab hbc⟩

/-- `generateMonochromeSequential` on an in-band reference, written through
`monoResult`. -/
lemma generateMonochromeSequential_eq (ref : ℕ) (colours : List ℕ) (n : ℕ)
    (h : ¬(ref < 16 ∨ 231 < ref)) :
    generateMonochromeSequential ref colours n =
      (if ref ∈ monoResult ref colours n then monoResult ref colours n
       else if 0 < (monoResult ref colours n).length then
         ((monoResult ref colours n).set ((monoResult ref colours n).length / 2)
             ref).insertionSort valueLe
       else monoResult ref colours n) := by
  unfold generateMonochromeSequential monoResult monoCandidates
  rw [if_neg h]

/-- The reference always belongs to its own monochrome candidate pool. -/
lemma ref_mem_monoCandidates {ref : ℕ} (h1 : 16 ≤ ref) (h2 : ref ≤ 231) (n : ℕ) :
    ref ∈ monoCandidates ref (makeRange 16 231) n := by
  have hmem : ref ∈ makeRange 16 231 := mem_makeRange.2 ⟨h1, h2⟩
  have hzero : fccDiff (hsv ref).1 ref = 0 := by
    unfold fccDiff
    rw [sub_self, abs_zero]
    norm_num
  unfold monoCandidates
  split_ifs with hlen
  · refine List.mem_filter.2 ⟨hmem, ?_⟩
    rw [decide_eq_true_eq, hzero]
    norm_num
  · refine List.mem_filter.2 ⟨hmem, ?_⟩
    rw [decide_eq_true_eq, hzero]
    norm_num

/-- C5: for every in-band reference, the monochrome sequential harmony set
is sorted by HSV value ascending, contains the reference, and has at most
six elements. -/
theorem generateMonochromeSequential_props (ref : ℕ) (h1 : 16 ≤ ref)
    (h2 : ref ≤ 231) : MonoSpec ref := by
  have hmemc := ref_mem_monoCandidates h1 h2 6
  have hsorted :
      List.Sorted valueLe
        ((monoCandidates ref (makeRange 16 231) 6).insertionSort valueLe) :=
    List.sorted_insertionSort valueLe _
  have hlen_pos :
      0 < ((monoCandidates ref (makeRange 16 231) 6).insertionSort valueLe).length := by
    rw [(List.perm_insertionSort valueLe _).length_eq]
    exact List.length_pos.2 (List.ne_nil_of_mem hmemc)
  have hres_sorted : List.Sorted valueLe (monoResult ref (makeRange 16 231) 6) :=
    hsorted.sublist (List.take_sublist _ _)
  have hres_len : (monoResult ref (makeRange 16 231) 6).length ≤ 6 := by
    unfold monoResult
    rw [List.length_take]
    omega
  have hres_pos : 0 < (monoResult ref (makeRange 16 231) 6).length := by
    unfold monoResult
    rw [List.length_take]
    omega
  unfold MonoSpec
  rw [generateMonochromeSequential_eq ref (makeRange 16 231) 6 (by omega)]
  by_cases hin : ref ∈ monoResult ref (makeRange 16 231) 6
  · rw [if_pos hin]
    exact ⟨hres_sorted, hin, hres_len⟩
  · rw [if_neg hin, if_pos hres_pos]
    have hmid :
        (monoResult ref (makeRange 16 231) 6).length / 2 <
          (monoResult ref (makeRange 16 231) 6).length :=
      Nat.div_lt_self hres_pos (by norm_num)
    refine ⟨List.sorted_insertionSort valueLe _, ?_, ?_⟩
    · exact (List.perm_insertionSort valueLe _).mem_iff.2
        (List.mem_set _ _ hmid _)
    · rw [(List.perm_insertionSort valueLe _).length_eq, List.length_set]
      exact hres_len

/-- Witness for C5 at reference 51. -/
theorem generateMonochromeSequential_props_witness : MonoSpec 51 :=
  generateMonochromeSequential_props 51 (by norm_num) (by norm_num)
